import Mathlib

/-!
Verification of the desktop reminder system's scheduler and configuration
loader (`reminder_system/scheduler.py`, `reminder_system/config.py`).

Modelling conventions:
* Wall-clock instants are natural numbers (epoch seconds); `datetime.now().minute`
  becomes `minuteOfHour t = t / 60 % 60`.
* The external `croniter` library is not part of the repository.  Its
  `get_next` computation is modelled as an abstract parameter
  `cronNext : String → Nat → Nat` (the next firing instant of the given
  expression strictly after the given instant); its `is_valid` check is
  modelled concretely by `croniter_is_valid`, implementing the standard
  five-field cron syntax.
* Python dictionaries become association lists preserving insertion order,
  with replace-or-append insertion (`dictInsert`).
* A reminder's callback is an opaque function in the source; dispatching is
  modelled by emitting an `invoke` event carrying the reminder's state at the
  moment the callback thread is started.
-/

/-! ## Character-list utilities for the cron validity model -/

/-- Split a list of characters on a separator character. -/
def splitListOn (sep : Char) : List Char → List (List Char)
  | [] => [[]]
  | c :: rest =>
      let r := splitListOn sep rest
      if c = sep then [] :: r
      else
        match r with
        | [] => [[c]]
        | g :: gs => (c :: g) :: gs

/-- Accumulate decimal digits; fails on a non-digit. -/
def parseNatAux : List Char → Nat → Option Nat
  | [], acc => some acc
  | c :: rest, acc =>
      if '0' ≤ c ∧ c ≤ '9' then parseNatAux rest (acc * 10 + (c.toNat - 48))
      else none

/-- Parse a non-empty all-digit token as a natural number. -/
def parseNatTok : List Char → Option Nat
  | [] => none
  | c :: rest => parseNatAux (c :: rest) 0

/-- Validity of a base element of a cron field: `*`, a literal `n`, or a
range `a-b`, with bounds checked against the field's permitted interval. -/
def validBase (lo hi : Nat) (base : List Char) : Bool :=
  if base = ['*'] then true
  else
    match splitListOn '-' base with
    | [a] =>
        match parseNatTok a with
        | some n => Nat.ble lo n && Nat.ble n hi
        | none => false
    | [a, b] =>
        match parseNatTok a, parseNatTok b with
        | some x, some y =>
            Nat.ble lo x && Nat.ble x hi && Nat.ble lo y && Nat.ble y hi && Nat.ble x y
        | _, _ => false
    | _ => false

/-- Validity of one comma-list element of a cron field: a base element or a
stepped form `*/n` or `a-b/n` with a positive step. -/
def validElem (lo hi : Nat) (tok : List Char) : Bool :=
  match splitListOn '/' tok with
  | [base] => validBase lo hi base
  | [base, step] =>
      (match parseNatTok step with
       | some n => Nat.ble 1 n
       | none => false)
      &&
      (base = ['*'] ||
        (match splitListOn '-' base with
         | [_, _] => validBase lo hi base
         | _ => false))
  | _ => false

/-- Validity of one whitespace-separated cron field (a comma-list of
elements). -/
def validField (lo hi : Nat) (field : List Char) : Bool :=
  (splitListOn ',' field).all (validElem lo hi)

/-- Model of the external croniter library's `is_valid` for standard
five-field cron expressions: minute 0-59, hour 0-23, day-of-month 1-31,
month 1-12, day-of-week 0-7.  (Month and weekday names, which the claims
never use, are omitted.) -/
def croniter_is_valid (expr : String) : Bool :=
  match (splitListOn ' ' expr.toList).filter (fun f => !f.isEmpty) with
  | [mi, h, dom, mon, dow] =>
      validField 0 59 mi && validField 0 23 h && validField 1 31 dom &&
        validField 1 12 mon && validField 0 7 dow
  | _ => false

/-! ## Association-list model of Python dictionaries -/

/-- Lookup of a key in an association list (first occurrence), mirroring
Python `d[k]` / `k in d`. -/
def lookupKey {β : Type} (key : String) : List (String × β) → Option β
  | [] => none
  | (k, v) :: rest => if k = key then some v else lookupKey key rest

/-- Replace-or-append insertion, mirroring Python `d[k] = v` on a dict that
preserves insertion order. -/
def dictInsert {β : Type} (key : String) (v : β) : List (String × β) → List (String × β)
  | [] => [(key, v)]
  | (k, w) :: rest => if k = key then (key, v) :: rest else (k, w) :: dictInsert key v rest

/-- Removal of a key, mirroring Python `del d[k]` guarded by `k in d`. -/
def removeKey {β : Type} (key : String) : List (String × β) → List (String × β)
  | [] => []
  | (k, w) :: rest => if k = key then rest else (k, w) :: removeKey key rest

/-- Update the entry stored under a key in place, mirroring a method call on
`d[k]` that mutates the stored object. -/
def updateKey {β : Type} (key : String) (f : β → β) : List (String × β) → List (String × β)
  | [] => []
  | (k, w) :: rest => if k = key then (k, f w) :: rest else (k, w) :: updateKey key f rest

/-- Boolean membership of a key, mirroring Python `k in d`. -/
def containsKey {β : Type} (key : String) : List (String × β) → Bool
  | [] => false
  | (k, _) :: rest => k = key || containsKey key rest

/-- Number of entries stored under a key. -/
def keyCount {β : Type} (key : String) : List (String × β) → Nat
  | [] => 0
  | (k, _) :: rest => (if k = key then 1 else 0) + keyCount key rest

/-- Keys are pairwise distinct — an invariant every Python dict enjoys. -/
def noDupKeys {β : Type} : List (String × β) → Bool
  | [] => true
  | (k, _) :: rest => !containsKey k rest && noDupKeys rest

/-! ## Scheduler data model (`reminder_system/scheduler.py`) -/

/-- The minute attribute of a wall-clock instant, as in `datetime.now().minute`. -/
def minuteOfHour (t : Nat) : Nat := t / 60 % 60

/-- The `ScheduledReminder` dataclass.  The `callback` attribute is an opaque
function in the source and is therefore not part of the state; invoking it is
modelled by the tick loop's event trace. -/
structure ScheduledReminder where
  name : String
  cron_expression : String
  next_run : Nat
  snoozed_until : Option Nat := none
deriving DecidableEq

/-- `ScheduledReminder.calculate_next_run`: recompute `next_run` from the cron
expression at the current instant (`croniter(expr, now).get_next`). -/
def ScheduledReminder.calculate_next_run (cronNext : String → Nat → Nat) (now : Nat)
    (r : ScheduledReminder) : ScheduledReminder :=
  { r with next_run := cronNext r.cron_expression now }

/-- `ScheduledReminder.snooze`: set `snoozed_until = now + seconds`. -/
def ScheduledReminder.set_snooze (now seconds : Nat) (r : ScheduledReminder) :
    ScheduledReminder :=
  { r with snoozed_until := some (now + seconds) }

/-- `ScheduledReminder.clear_snooze`: clear the snooze and recalculate
`next_run`. -/
def ScheduledReminder.clear_snooze (cronNext : String → Nat → Nat) (now : Nat)
    (r : ScheduledReminder) : ScheduledReminder :=
  ScheduledReminder.calculate_next_run cronNext now { r with snoozed_until := none }

/-- `ScheduledReminder.get_effective_next_run`: the snooze instant while it is
set and still in the future, otherwise `next_run`. -/
def ScheduledReminder.get_effective_next_run (now : Nat) (r : ScheduledReminder) : Nat :=
  match r.snoozed_until with
  | some su => if now < su then su else r.next_run
  | none => r.next_run

/-- The mutable state of `ReminderScheduler`: the reminder map, the
scheduler-wide set of names already triggered this minute, and the minute
value last seen by the tick loop. -/
structure SchedulerState where
  reminders : List (String × ScheduledReminder)
  triggered_this_minute : List String
  last_minute : Option Nat
deriving DecidableEq

/-- `ReminderScheduler.__init__`: empty map, empty triggered set, no minute
seen yet. -/
def SchedulerState.init : SchedulerState :=
  { reminders := [], triggered_this_minute := [], last_minute := none }

/-- The entry `add_reminder` constructs: the given name and expression, the
initial `next_run` computed at registration time, and no snooze. -/
def freshReminder (cronNext : String → Nat → Nat) (now : Nat) (name expr : String) :
    ScheduledReminder :=
  { name := name
    cron_expression := expr
    next_run := cronNext expr now
    snoozed_until := none }

/-- `ReminderScheduler.add_reminder`: validate the cron expression (raising
`ValueError` on failure, here the `.error` case), compute the initial
`next_run`, and store a freshly constructed entry under the name. -/
def add_reminder (cronNext : String → Nat → Nat) (now : Nat) (s : SchedulerState)
    (name cron_expression : String) : Except String SchedulerState :=
  if croniter_is_valid cron_expression = false then
    .error ("Invalid cron expression: " ++ cron_expression)
  else
    .ok { s with
          reminders := dictInsert name
            (freshReminder cronNext now name cron_expression) s.reminders }

/-- `ReminderScheduler.remove_reminder`: delete the entry if present. -/
def remove_reminder (s : SchedulerState) (name : String) : SchedulerState :=
  { s with reminders := removeKey name s.reminders }

/-- `ReminderScheduler.snooze_reminder`: snooze the named reminder if present,
otherwise do nothing. -/
def snooze_reminder (now : Nat) (s : SchedulerState) (name : String) (seconds : Nat) :
    SchedulerState :=
  if containsKey name s.reminders then
    { s with reminders := updateKey name (ScheduledReminder.set_snooze now seconds) s.reminders }
  else s

/-- `ReminderScheduler.complete_reminder`: clear the snooze and recompute the
next occurrence for the named reminder if present, otherwise do nothing. -/
def complete_reminder (cronNext : String → Nat → Nat) (now : Nat) (s : SchedulerState)
    (name : String) : SchedulerState :=
  if containsKey name s.reminders then
    { s with reminders := updateKey name (ScheduledReminder.clear_snooze cronNext now) s.reminders }
  else s

/-! ## The tick loop (`ReminderScheduler._run_loop`)

One iteration of the `while self._running` loop is `tick`; a sequence of
iterations is `runTicks`.  Besides the new state, a tick yields a trace of
events recording, in program order, the lock acquisition, each state change
to a dispatched reminder, each start of a callback thread, and the lock
release.  The `invoke` event carries the dispatched reminder's state at the
moment `threading.Thread(target=reminder.callback, ...).start()` runs. -/

/-- Observable events of one tick-loop iteration, in program order. -/
inductive TickEvent where
  | lockAcquire : TickEvent
  | lockRelease : TickEvent
  | clearSnooze : String → TickEvent
  | setNextRun : String → Nat → TickEvent
  | invoke : String → ScheduledReminder → TickEvent
deriving DecidableEq

/-- Result of scanning the reminder list under the lock: updated entries, the
updated triggered-this-minute set, and the emitted events. -/
structure ScanResult where
  rems : List (String × ScheduledReminder)
  trig : List String
  evs : List TickEvent
deriving DecidableEq

/-- The body of the `for name, reminder in list(self.reminders.items())` loop
for a single entry: skip names already triggered this minute, skip entries
whose effective next run is still in the future, and otherwise dispatch —
record the name, clear an existing snooze, recalculate the next run, and
start the callback thread. -/
def processReminder (cronNext : String → Nat → Nat) (now : Nat) (trig : List String)
    (name : String) (r : ScheduledReminder) :
    ScheduledReminder × List String × List TickEvent :=
  if name ∈ trig then (r, trig, [])
  else if r.get_effective_next_run now ≤ now then
    let r1 := if r.snoozed_until.isSome then { r with snoozed_until := none } else r
    let r2 := r1.calculate_next_run cronNext now
    (r2, trig ++ [name],
      (if r.snoozed_until.isSome then [TickEvent.clearSnooze name] else []) ++
        [TickEvent.setNextRun name r2.next_run, TickEvent.invoke name r2])
  else (r, trig, [])

/-- Scan of the whole reminder list in insertion order. -/
def scanReminders (cronNext : String → Nat → Nat) (now : Nat) :
    List (String × ScheduledReminder) → List String → ScanResult
  | [], trig => { rems := [], trig := trig, evs := [] }
  | (n, r) :: rest, trig =>
      let p := processReminder cronNext now trig n r
      let res := scanReminders cronNext now rest p.2.1
      { rems := (n, p.1) :: res.rems, trig := res.trig, evs := p.2.2 ++ res.evs }

/-- One iteration of `ReminderScheduler._run_loop`: read the clock, clear the
triggered set when the minute attribute changed, then scan all reminders
under the scheduler lock.  The callback threads are started inside the locked
region; the lock is released only after the full scan. -/
def tick (cronNext : String → Nat → Nat) (now : Nat) (s : SchedulerState) :
    SchedulerState × List TickEvent :=
  let current_minute := minuteOfHour now
  let trig0 := if s.last_minute = some current_minute then s.triggered_this_minute else []
  let res := scanReminders cronNext now s.reminders trig0
  ({ reminders := res.rems, triggered_this_minute := res.trig,
     last_minute := some current_minute },
   TickEvent.lockAcquire :: (res.evs ++ [TickEvent.lockRelease]))

/-- A sequence of tick-loop iterations at the given instants. -/
def runTicks (cronNext : String → Nat → Nat) : List Nat → SchedulerState →
    SchedulerState × List TickEvent
  | [], s => (s, [])
  | t :: ts, s =>
      let p := tick cronNext t s
      let q := runTicks cronNext ts p.1
      (q.1, p.2 ++ q.2)

/-- Whether an event is the start of a callback thread for the given name. -/
def isInvokeFor (name : String) : TickEvent → Bool
  | .invoke n _ => n = name
  | _ => false

/-- Whether an event is the release of the scheduler lock. -/
def isLockRelease : TickEvent → Bool
  | .lockRelease => true
  | _ => false

/-- Number of callback invocations for the given name in an event trace. -/
def countInvokes (name : String) : List TickEvent → Nat
  | [] => 0
  | e :: rest => (if isInvokeFor name e then 1 else 0) + countInvokes name rest

/-! ## Configuration loader (`reminder_system/config.py`) -/

/-- Primitive TOML values occurring in a settings table. -/
inductive TomlPrim where
  | str : String → TomlPrim
  | int : Int → TomlPrim
  | float : Rat → TomlPrim
deriving DecidableEq

/-- A top-level TOML entry: a table, or any non-table value (skipped by the
loader). -/
inductive TomlItem where
  | table : List (String × TomlPrim) → TomlItem
  | scalar : TomlPrim → TomlItem
deriving DecidableEq

/-- The `GeneralConfig` dataclass.  Values keep their dynamic TOML type, as
the Python dataclass performs no runtime coercion. -/
structure GeneralConfig where
  text_font : TomlPrim
  text_size : TomlPrim
  icon_scale : TomlPrim
  max_opacity : TomlPrim
  fade_in_duration : TomlPrim
  fade_out_duration : TomlPrim
deriving DecidableEq

/-- The dataclass defaults of `GeneralConfig()`. -/
def generalDefault : GeneralConfig :=
  { text_font := .str "Sans Serif"
    text_size := .int 24
    icon_scale := .float 1.0
    max_opacity := .float 0.85
    fade_in_duration := .int 2000
    fade_out_duration := .int 500 }

/-- `GeneralConfig.from_dict`: each field from `settings.get(key, default)`. -/
def GeneralConfig.from_dict (settings : List (String × TomlPrim)) : GeneralConfig :=
  { text_font := (lookupKey "text_font" settings).getD (.str "Sans Serif")
    text_size := (lookupKey "text_size" settings).getD (.int 24)
    icon_scale := (lookupKey "icon_scale" settings).getD (.float 1.0)
    max_opacity := (lookupKey "max_opacity" settings).getD (.float 0.85)
    fade_in_duration := (lookupKey "fade_in_duration" settings).getD (.int 2000)
    fade_out_duration := (lookupKey "fade_out_duration" settings).getD (.int 500) }

/-- The `ReminderConfig` dataclass.  The `schedule` value is stored exactly as
read from the TOML data — the loader performs no cron validation. -/
structure ReminderConfig where
  name : String
  schedule : TomlPrim
  icon : TomlPrim
  snooze_duration : TomlPrim
  icon_path : String
  text : Option TomlPrim
deriving DecidableEq

/-- `ReminderConfig.from_dict`: require the `schedule` and `icon` keys
(raising `ValueError` otherwise), join the icon filename to the config
directory, and default `snooze_duration` to 300 and `text` to absent.  The
path join demands a string icon value (Python raises `TypeError` otherwise).
Error messages are abridged from the source. -/
def ReminderConfig.from_dict (name : String) (settings : List (String × TomlPrim))
    (config_dir : String) : Except String ReminderConfig :=
  match lookupKey "schedule" settings with
  | none => .error ("Reminder " ++ name ++ " is missing schedule field")
  | some sched =>
    match lookupKey "icon" settings with
    | none => .error ("Reminder " ++ name ++ " is missing icon field")
    | some icon =>
      match icon with
      | .str icon_s =>
          .ok { name := name
                schedule := sched
                icon := icon
                snooze_duration := (lookupKey "snooze_duration" settings).getD (.int 300)
                icon_path := config_dir ++ "/" ++ icon_s
                text := lookupKey "text" settings }
      | _ => .error "unsupported operand type for path join"

/-- The loop body of `parse_config_data`: skip non-table entries, treat the
`general` table specially, and otherwise build a `ReminderConfig`,
propagating its `ValueError`.  The icon-existence check of the source is a
warning print with no semantic effect and is omitted. -/
def parse_config_data_go (config_dir : String) :
    List (String × TomlItem) → List (String × ReminderConfig) → GeneralConfig →
    Except String (List (String × ReminderConfig) × GeneralConfig)
  | [], acc, gen => .ok (acc, gen)
  | (name, item) :: rest, acc, gen =>
      match item with
      | .scalar _ => parse_config_data_go config_dir rest acc gen
      | .table settings =>
          if name = "general" then
            parse_config_data_go config_dir rest acc (GeneralConfig.from_dict settings)
          else
            match ReminderConfig.from_dict name settings config_dir with
            | .error e => .error e
            | .ok rc => parse_config_data_go config_dir rest (dictInsert name rc acc) gen

/-- `parse_config_data`: fold the raw TOML data into the reminder catalogue
and the general settings. -/
def parse_config_data (config_data : List (String × TomlItem)) (config_dir : String) :
    Except String (List (String × ReminderConfig) × GeneralConfig) :=
  parse_config_data_go config_dir config_data [] generalDefault

/-! ## Concrete instances used by witnesses and counterexamples -/

/-- A concrete stand-in for the croniter `get_next` computation: the next
minute boundary. -/
def demoNext : String → Nat → Nat := fun _ t => t / 60 * 60 + 60

/-- A reminder due at instant 100. -/
def demoDue : ScheduledReminder :=
  { name := "t", cron_expression := "* * * * *", next_run := 100, snoozed_until := none }

/-- A scheduler holding the single due reminder. -/
def demoState : SchedulerState :=
  { reminders := [("t", demoDue)], triggered_this_minute := [], last_minute := none }

/-- A reminder whose `next_run` has passed but which is snoozed until 200. -/
def demoSnoozed : ScheduledReminder :=
  { name := "t", cron_expression := "* * * * *", next_run := 100, snoozed_until := some 200 }

/-- A scheduler holding the snoozed reminder. -/
def demoStateSnoozed : SchedulerState :=
  { reminders := [("t", demoSnoozed)], triggered_this_minute := [], last_minute := none }

/-- The reminder state carried by the dispatch of `demoState` at instant 120. -/
def demoDispatched : ScheduledReminder :=
  { name := "t", cron_expression := "* * * * *", next_run := 180, snoozed_until := none }

/-- A second reminder, registered under another name. -/
def demoOther : ScheduledReminder :=
  { name := "u", cron_expression := "0 * * * *", next_run := 3600, snoozed_until := none }

/-- A scheduler holding a snoozed `t` and the unrelated `u`. -/
def demoTwo : SchedulerState :=
  { reminders := [("t", demoSnoozed), ("u", demoOther)],
    triggered_this_minute := [], last_minute := none }

/-- `demoTwo` after re-registering `t` under schedule `0 * * * *` at 130. -/
def demoReplaced : SchedulerState :=
  { reminders := [("t", freshReminder demoNext 130 "t" "0 * * * *"), ("u", demoOther)],
    triggered_this_minute := [], last_minute := none }

/-- The empty scheduler after registering `w` under `* * * * *` at 100. -/
def demoAddedInit : SchedulerState :=
  { reminders := [("w", freshReminder demoNext 100 "w" "* * * * *")],
    triggered_this_minute := [], last_minute := none }

/-- `demoState` after its dispatch at 120, removal of `t`, and
re-registration of `t` at 125. -/
def demoReAdded : SchedulerState :=
  { reminders := [("t", freshReminder demoNext 125 "t" "* * * * *")],
    triggered_this_minute := ["t"], last_minute := some 2 }

/-- The `ReminderConfig` the loader produces from a table carrying only
string-valued `schedule` and `icon` keys. -/
def basicReminderConfig (name sched icon cdir : String) : ReminderConfig :=
  { name := name
    schedule := TomlPrim.str sched
    icon := TomlPrim.str icon
    snooze_duration := TomlPrim.int 300
    icon_path := cdir ++ "/" ++ icon
    text := none }

/-! ## Helper lemmas: association lists -/

theorem containsKey_eq_isSome {β : Type} (key : String) (l : List (String × β)) :
    containsKey key l = (lookupKey key l).isSome := by
  induction l with
  | nil => rfl
  | cons hd tl ih =>
      obtain ⟨k, v⟩ := hd
      by_cases h : k = key
      · simp [containsKey, lookupKey, h]
      · simp [containsKey, lookupKey, h, ih]

theorem containsKey_of_mem {β : Type} (key : String) (w : β) :
    ∀ l : List (String × β), (key, w) ∈ l → containsKey key l = true := by
  intro l
  induction l with
  | nil => intro h; cases h
  | cons hd tl ih =>
      obtain ⟨k, u⟩ := hd
      intro hmem
      rcases List.mem_cons.mp hmem with heq | hmemtl
      · cases heq; simp [containsKey]
      · simp [containsKey, ih hmemtl]

theorem lookup_nodup_mem {β : Type} (key : String) (v w : β) :
    ∀ l : List (String × β), noDupKeys l = true → lookupKey key l = some v →
      (key, w) ∈ l → w = v := by
  intro l
  induction l with
  | nil => intro _ _ hmem; cases hmem
  | cons hd tl ih =>
      obtain ⟨k, u⟩ := hd
      intro hnd hlook hmem
      have hnd1 : containsKey k tl = false ∧ noDupKeys tl = true := by
        simpa [noDupKeys] using hnd
      by_cases h : k = key
      · subst h
        have hv : u = v := by simpa [lookupKey] using hlook
        rcases List.mem_cons.mp hmem with heq | hmemtl
        · cases heq; exact hv
        · exact absurd (containsKey_of_mem k w tl hmemtl) (by simp [hnd1.1])
      · have hlook2 : lookupKey key tl = some v := by simpa [lookupKey, h] using hlook
        rcases List.mem_cons.mp hmem with heq | hmemtl
        · cases heq; exact absurd rfl h
        · exact ih hnd1.2 hlook2 hmemtl

theorem lookupKey_updateKey_self {β : Type} (key : String) (f : β → β) (v : β) :
    ∀ l : List (String × β), lookupKey key l = some v →
      lookupKey key (updateKey key f l) = some (f v) := by
  intro l
  induction l with
  | nil => intro h; cases h
  | cons hd tl ih =>
      obtain ⟨k, u⟩ := hd
      intro hlook
      by_cases h : k = key
      · subst h
        have hv : u = v := by simpa [lookupKey] using hlook
        subst hv
        simp [updateKey, lookupKey]
      · have : lookupKey key tl = some v := by simpa [lookupKey, h] using hlook
        simp [updateKey, lookupKey, h, ih this]

theorem lookupKey_dictInsert_self {β : Type} (key : String) (v : β) :
    ∀ l : List (String × β), lookupKey key (dictInsert key v l) = some v := by
  intro l
  induction l with
  | nil => simp [dictInsert, lookupKey]
  | cons hd tl ih =>
      obtain ⟨k, u⟩ := hd
      by_cases h : k = key
      · simp [dictInsert, lookupKey, h]
      · simp [dictInsert, lookupKey, h, ih]

theorem lookupKey_dictInsert_ne {β : Type} (key n : String) (v : β) (hne : n ≠ key) :
    ∀ l : List (String × β), lookupKey n (dictInsert key v l) = lookupKey n l := by
  intro l
  have hne2 : ¬ (key = n) := fun h => hne h.symm
  induction l with
  | nil => simp [dictInsert, lookupKey, hne2]
  | cons hd tl ih =>
      obtain ⟨k, u⟩ := hd
      by_cases h : k = key
      · subst h
        simp [dictInsert, lookupKey, hne2]
      · simp only [dictInsert, if_neg h]
        by_cases h2 : k = n
        · simp [lookupKey, h2]
        · simp [lookupKey, h2, ih]

theorem keyCount_zero_of_not_contains {β : Type} (key : String) :
    ∀ l : List (String × β), containsKey key l = false → keyCount key l = 0 := by
  intro l
  induction l with
  | nil => intro _; rfl
  | cons hd tl ih =>
      obtain ⟨k, u⟩ := hd
      intro h
      have h2 : ¬ (k = key) ∧ containsKey key tl = false := by
        simpa [containsKey] using h
      simp [keyCount, h2.1, ih h2.2]

theorem keyCount_dictInsert {β : Type} (key : String) (v : β) :
    ∀ l : List (String × β), noDupKeys l = true →
      keyCount key (dictInsert key v l) = 1 := by
  intro l
  induction l with
  | nil => intro _; simp [dictInsert, keyCount]
  | cons hd tl ih =>
      obtain ⟨k, u⟩ := hd
      intro hnd
      have hnd1 : containsKey k tl = false ∧ noDupKeys tl = true := by
        simpa [noDupKeys] using hnd
      by_cases h : k = key
      · subst h
        simp [dictInsert, keyCount, keyCount_zero_of_not_contains k tl hnd1.1]
      · simp [dictInsert, h, keyCount, ih hnd1.2]

/-! ## Helper lemmas: event traces and the tick scan -/

theorem countInvokes_append (name : String) (l1 l2 : List TickEvent) :
    countInvokes name (l1 ++ l2) = countInvokes name l1 + countInvokes name l2 := by
  induction l1 with
  | nil => simp [countInvokes]
  | cons e rest ih => simp [countInvokes, ih, Nat.add_assoc]

theorem countInvokes_pos_mem (name : String) :
    ∀ l : List TickEvent, 1 ≤ countInvokes name l →
      ∃ r2 : ScheduledReminder, TickEvent.invoke name r2 ∈ l := by
  intro l
  induction l with
  | nil => intro h; simp [countInvokes] at h
  | cons e rest ih =>
      intro h
      by_cases he : isInvokeFor name e = true
      · cases e with
        | invoke n r2 =>
            have : n = name := by simpa [isInvokeFor] using he
            subst this
            exact ⟨r2, List.mem_cons_self _ _⟩
        | lockAcquire => simp [isInvokeFor] at he
        | lockRelease => simp [isInvokeFor] at he
        | clearSnooze _ => simp [isInvokeFor] at he
        | setNextRun _ _ => simp [isInvokeFor] at he
      · have : countInvokes name (e :: rest) = countInvokes name rest := by
          simp [countInvokes, he]
        rw [this] at h
        obtain ⟨r2, hr2⟩ := ih h
        exact ⟨r2, List.mem_cons_of_mem _ hr2⟩

/-- Case analysis on the per-reminder loop body: either the entry is left
untouched and nothing is emitted, or it is dispatched — its snooze cleared,
its next run recalculated, its name recorded, and the callback thread
started. -/
theorem processReminder_cases (c : String → Nat → Nat) (now : Nat) (trig : List String)
    (n : String) (r : ScheduledReminder) :
    processReminder c now trig n r = (r, trig, []) ∨
    ∃ r2 : ScheduledReminder,
      r2.snoozed_until = none ∧
      r2.next_run = c r2.cron_expression now ∧
      r2.cron_expression = r.cron_expression ∧
      ¬ n ∈ trig ∧
      r.get_effective_next_run now ≤ now ∧
      processReminder c now trig n r =
        (r2, trig ++ [n],
          (if r.snoozed_until.isSome then [TickEvent.clearSnooze n] else []) ++
            [TickEvent.setNextRun n r2.next_run, TickEvent.invoke n r2]) := by
  by_cases h1 : n ∈ trig
  · left; simp [processReminder, h1]
  · by_cases h2 : r.get_effective_next_run now ≤ now
    · right
      refine ⟨(if r.snoozed_until.isSome then { r with snoozed_until := none } else r).calculate_next_run c now,
        ?_, ?_, ?_, h1, h2, ?_⟩
      · by_cases hs : r.snoozed_until.isSome
        · simp [hs, ScheduledReminder.calculate_next_run]
        · simp only [hs, if_false]
          have := Option.not_isSome_iff_eq_none.mp (by simpa using hs)
          simp [ScheduledReminder.calculate_next_run, this]
      · by_cases hs : r.snoozed_until.isSome <;>
          simp [hs, ScheduledReminder.calculate_next_run]
      · by_cases hs : r.snoozed_until.isSome <;>
          simp [hs, ScheduledReminder.calculate_next_run]
      · simp [processReminder, h1, h2]
    · left; simp [processReminder, h1, h2]

theorem scanReminders_nil (c : String → Nat → Nat) (now : Nat) (trig : List String) :
    scanReminders c now [] trig = { rems := [], trig := trig, evs := [] } := rfl

theorem scanReminders_cons (c : String → Nat → Nat) (now : Nat) (n : String)
    (r : ScheduledReminder) (rest : List (String × ScheduledReminder)) (trig : List String) :
    scanReminders c now ((n, r) :: rest) trig =
      { rems := (n, (processReminder c now trig n r).1) ::
          (scanReminders c now rest (processReminder c now trig n r).2.1).rems,
        trig := (scanReminders c now rest (processReminder c now trig n r).2.1).trig,
        evs := (processReminder c now trig n r).2.2 ++
          (scanReminders c now rest (processReminder c now trig n r).2.1).evs } := rfl

/-- Names already in the triggered set are never dispatched by the scan and
stay in the set. -/
theorem scan_inTrig (c : String → Nat → Nat) (now : Nat) (name : String) :
    ∀ (rems : List (String × ScheduledReminder)) (trig : List String), name ∈ trig →
      name ∈ (scanReminders c now rems trig).trig ∧
        countInvokes name (scanReminders c now rems trig).evs = 0 := by
  intro rems
  induction rems with
  | nil => intro trig h; exact ⟨h, rfl⟩
  | cons hd rest ih =>
      obtain ⟨n, r⟩ := hd
      intro trig h
      rw [scanReminders_cons]
      rcases processReminder_cases c now trig n r with hskip | ⟨r2, _, _, _, hnin, _, hdue⟩
      · rw [hskip]
        simpa [countInvokes] using ih trig h
      · rw [hdue]
        have hne : ¬ (n = name) := fun he => hnin (he ▸ h)
        have hmem2 : name ∈ trig ++ [n] := List.mem_append_left _ h
        obtain ⟨ih1, ih2⟩ := ih (trig ++ [n]) hmem2
        refine ⟨by simpa using ih1, ?_⟩
        by_cases hs : r.snoozed_until.isSome <;>
          simp [hs, countInvokes_append, countInvokes, isInvokeFor, hne, ih2]

/-- Each scan dispatches a given name at most once, and a dispatched name
ends up in the triggered set. -/
theorem scan_bound (c : String → Nat → Nat) (now : Nat) (name : String) :
    ∀ (rems : List (String × ScheduledReminder)) (trig : List String),
      countInvokes name (scanReminders c now rems trig).evs ≤ 1 ∧
      (1 ≤ countInvokes name (scanReminders c now rems trig).evs →
        name ∈ (scanReminders c now rems trig).trig) := by
  intro rems
  induction rems with
  | nil =>
      intro trig
      exact ⟨by simp [scanReminders_nil, countInvokes], by simp [scanReminders_nil, countInvokes]⟩
  | cons hd rest ih =>
      obtain ⟨n, r⟩ := hd
      intro trig
      rw [scanReminders_cons]
      rcases processReminder_cases c now trig n r with hskip | ⟨r2, _, _, _, hnin, _, hdue⟩
      · rw [hskip]
        simpa [countInvokes] using ih trig
      · rw [hdue]
        by_cases hne : n = name
        · subst hne
          have hmem2 : n ∈ trig ++ [n] := List.mem_append_right _ (List.mem_cons_self _ _)
          obtain ⟨ih1, ih2⟩ := scan_inTrig c now n rest (trig ++ [n]) hmem2
          constructor
          · by_cases hs : r.snoozed_until.isSome <;>
              simp [hs, countInvokes_append, countInvokes, isInvokeFor, ih2]
          · intro _
            simpa using ih1
        · obtain ⟨ih1, ih2⟩ := ih (trig ++ [n])
          constructor
          · by_cases hs : r.snoozed_until.isSome <;>
              simpa [hs, countInvokes_append, countInvokes, isInvokeFor, hne] using ih1
          · intro hpos
            apply ih2
            by_cases hs : r.snoozed_until.isSome <;>
              simpa [hs, countInvokes_append, countInvokes, isInvokeFor, hne] using hpos

/-- Every callback thread started by a scan belongs to a reminder that was
due, and the state it carries has its snooze cleared and its next run
recalculated from the current instant. -/
theorem scan_invoke_src (c : String → Nat → Nat) (now : Nat) :
    ∀ (rems : List (String × ScheduledReminder)) (trig : List String)
      (name : String) (r2 : ScheduledReminder),
      TickEvent.invoke name r2 ∈ (scanReminders c now rems trig).evs →
        r2.snoozed_until = none ∧ r2.next_run = c r2.cron_expression now ∧
        ∃ r0, (name, r0) ∈ rems ∧ r0.get_effective_next_run now ≤ now := by
  intro rems
  induction rems with
  | nil => intro trig name r2 h; simp [scanReminders_nil] at h
  | cons hd rest ih =>
      obtain ⟨n, r⟩ := hd
      intro trig name r2 h
      rw [scanReminders_cons] at h
      rcases processReminder_cases c now trig n r with hskip | ⟨r3, hs1, hs2, _, _, hdue0, hdue⟩
      · rw [hskip] at h
        simp only [List.nil_append] at h
        obtain ⟨ha, hb, r0, hr0, hr0d⟩ := ih trig name r2 h
        exact ⟨ha, hb, r0, List.mem_cons_of_mem _ hr0, hr0d⟩
      · rw [hdue] at h
        simp only [List.mem_append] at h
        rcases h with hin1 | hinrest
        · have hpair : name = n ∧ r2 = r3 := by
            by_cases hs : r.snoozed_until.isSome
            · simpa [hs] using hin1
            · simpa [hs] using hin1
          obtain ⟨hn, hr⟩ := hpair
          subst hn; subst hr
          exact ⟨hs1, hs2, r, List.mem_cons_self _ _, hdue0⟩
        · obtain ⟨ha, hb, r0, hr0, hr0d⟩ := ih (trig ++ [n]) name r2 hinrest
          exact ⟨ha, hb, r0, List.mem_cons_of_mem _ hr0, hr0d⟩

/-- The scan emits no lock events; the tick wraps it in exactly one
acquisition and one release. -/
theorem scan_no_lock (c : String → Nat → Nat) (now : Nat) :
    ∀ (rems : List (String × ScheduledReminder)) (trig : List String),
      ∀ e ∈ (scanReminders c now rems trig).evs,
        e ≠ TickEvent.lockAcquire ∧ e ≠ TickEvent.lockRelease := by
  intro rems
  induction rems with
  | nil => intro trig e h; simp [scanReminders_nil] at h
  | cons hd rest ih =>
      obtain ⟨n, r⟩ := hd
      intro trig e h
      rw [scanReminders_cons] at h
      rcases processReminder_cases c now trig n r with hskip | ⟨r3, _, _, _, _, _, hdue⟩
      · rw [hskip] at h
        simp only [List.nil_append] at h
        exact ih trig e h
      · rw [hdue] at h
        simp only [List.mem_append] at h
        rcases h with hin1 | hinrest
        · by_cases hs : r.snoozed_until.isSome
          · simp [hs] at hin1
            rcases hin1 with h1 | h1 | h1 <;> subst h1 <;> exact ⟨by simp, by simp⟩
          · simp [hs] at hin1
            rcases hin1 with h1 | h1 <;> subst h1 <;> exact ⟨by simp, by simp⟩
        · exact ih (trig ++ [n]) e hinrest

/-- Projection equations of one tick. -/
theorem tick_reminders (c : String → Nat → Nat) (now : Nat) (s : SchedulerState) :
    (tick c now s).1.reminders =
      (scanReminders c now s.reminders
        (if s.last_minute = some (minuteOfHour now) then s.triggered_this_minute else [])).rems :=
  rfl

theorem tick_trig (c : String → Nat → Nat) (now : Nat) (s : SchedulerState) :
    (tick c now s).1.triggered_this_minute =
      (scanReminders c now s.reminders
        (if s.last_minute = some (minuteOfHour now) then s.triggered_this_minute else [])).trig :=
  rfl

theorem tick_last (c : String → Nat → Nat) (now : Nat) (s : SchedulerState) :
    (tick c now s).1.last_minute = some (minuteOfHour now) := rfl

theorem tick_evs (c : String → Nat → Nat) (now : Nat) (s : SchedulerState) :
    (tick c now s).2 =
      TickEvent.lockAcquire ::
        ((scanReminders c now s.reminders
          (if s.last_minute = some (minuteOfHour now) then s.triggered_this_minute else [])).evs ++
          [TickEvent.lockRelease]) :=
  rfl

/-- Counting invocations in a tick trace reduces to counting them in the
scan's events. -/
theorem countInvokes_tick (c : String → Nat → Nat) (now : Nat) (s : SchedulerState)
    (name : String) :
    countInvokes name (tick c now s).2 =
      countInvokes name
        (scanReminders c now s.reminders
          (if s.last_minute = some (minuteOfHour now) then s.triggered_this_minute else [])).evs := by
  rw [tick_evs]
  simp [countInvokes, countInvokes_append, isInvokeFor]

/-- A tick dispatches each name at most once, and a dispatched name is in the
triggered set afterwards. -/
theorem tick_bound (c : String → Nat → Nat) (now : Nat) (s : SchedulerState) (name : String) :
    countInvokes name (tick c now s).2 ≤ 1 ∧
      (1 ≤ countInvokes name (tick c now s).2 →
        name ∈ (tick c now s).1.triggered_this_minute) := by
  rw [countInvokes_tick, tick_trig]
  exact scan_bound c now name s.reminders _

/-- A name already in the triggered set is silent for the whole minute: if
the minute attribute is unchanged, the tick dispatches nothing for it and
keeps it in the set. -/
theorem tick_guarded (c : String → Nat → Nat) (now : Nat) (s : SchedulerState) (name : String)
    (hmem : name ∈ s.triggered_this_minute)
    (hlast : s.last_minute = some (minuteOfHour now)) :
    countInvokes name (tick c now s).2 = 0 ∧
      name ∈ (tick c now s).1.triggered_this_minute := by
  rw [countInvokes_tick, tick_trig]
  have h0 : (if s.last_minute = some (minuteOfHour now) then s.triggered_this_minute else []) =
      s.triggered_this_minute := by simp [hlast]
  rw [h0]
  obtain ⟨h1, h2⟩ := scan_inTrig c now name s.reminders s.triggered_this_minute hmem
  exact ⟨h2, h1⟩

/-- Across any sequence of ticks inside one wall-clock minute, each name is
dispatched at most once; and not at all if the scheduler has already
dispatched it in that minute. -/
theorem runTicks_minute (c : String → Nat → Nat) (name : String) (m : Nat) :
    ∀ (times : List Nat) (s : SchedulerState), (∀ t ∈ times, t / 60 = m) →
      countInvokes name (runTicks c times s).2 ≤ 1 ∧
      (name ∈ s.triggered_this_minute → s.last_minute = some (m % 60) →
        countInvokes name (runTicks c times s).2 = 0) := by
  intro times
  induction times with
  | nil =>
      intro s _
      exact ⟨by simp [runTicks, countInvokes], fun _ _ => by simp [runTicks, countInvokes]⟩
  | cons t ts ih =>
      intro s h
      have ht : t / 60 = m := h t (List.mem_cons_self _ _)
      have hts : ∀ x ∈ ts, x / 60 = m := fun x hx => h x (List.mem_cons_of_mem _ hx)
      have hmOH : minuteOfHour t = m % 60 := by unfold minuteOfHour; rw [ht]
      have hsplit : countInvokes name (runTicks c (t :: ts) s).2 =
          countInvokes name (tick c t s).2 +
            countInvokes name (runTicks c ts (tick c t s).1).2 := by
        simp [runTicks, countInvokes_append]
      obtain ⟨hb, hinv⟩ := tick_bound c t s name
      have hlast1 : (tick c t s).1.last_minute = some (m % 60) := by
        rw [tick_last, hmOH]
      constructor
      · rcases Nat.eq_zero_or_pos (countInvokes name (tick c t s).2) with h0 | hpos
        · rw [hsplit, h0]
          simpa using (ih (tick c t s).1 hts).1
        · have hm1 : name ∈ (tick c t s).1.triggered_this_minute := hinv hpos
          have hrest := (ih (tick c t s).1 hts).2 hm1 hlast1
          rw [hsplit, hrest]
          omega
      · intro hmem hlastm
        have hlast0 : s.last_minute = some (minuteOfHour t) := by rw [hlastm, hmOH]
        obtain ⟨hz, hm1⟩ := tick_guarded c t s name hmem hlast0
        have hrest := (ih (tick c t s).1 hts).2 hm1 hlast1
        rw [hsplit, hz, hrest]

/-- Any callback invocation of a tick comes from the scan: the dispatched
reminder was due, and the state carried by the invocation has its snooze
cleared and its next run recalculated from the tick instant. -/
theorem tick_invoke_src (c : String → Nat → Nat) (now : Nat) (s : SchedulerState)
    (name : String) (r2 : ScheduledReminder)
    (h : TickEvent.invoke name r2 ∈ (tick c now s).2) :
    r2.snoozed_until = none ∧ r2.next_run = c r2.cron_expression now ∧
    ∃ r0, (name, r0) ∈ s.reminders ∧ r0.get_effective_next_run now ≤ now := by
  rw [tick_evs] at h
  simp only [List.mem_cons, List.mem_append, List.mem_singleton] at h
  rcases h with h1 | h2 | h3
  · simp at h1
  · exact scan_invoke_src c now s.reminders _ name r2 h2
  · simp at h3

/-- Successful registration decomposes: the expression was valid and the new
state stores a freshly constructed entry, everything else unchanged. -/
theorem add_reminder_ok (c : String → Nat → Nat) (now : Nat) (s : SchedulerState)
    (name expr : String) (s2 : SchedulerState)
    (hok : add_reminder c now s name expr = .ok s2) :
    croniter_is_valid expr = true ∧
    s2 = { s with reminders := dictInsert name (freshReminder c now name expr) s.reminders } := by
  by_cases hv : croniter_is_valid expr = false
  · simp [add_reminder, hv] at hok
  · have hv2 : croniter_is_valid expr = true := by
      cases hcv : croniter_is_valid expr
      · exact absurd hcv hv
      · rfl
    refine ⟨hv2, ?_⟩
    simp [add_reminder, hv2] at hok
    exact hok.symm

/-- Unfolding `clear_snooze` into a single record update. -/
theorem clear_snooze_eq (c : String → Nat → Nat) (now : Nat) (r : ScheduledReminder) :
    ScheduledReminder.clear_snooze c now r =
      { r with snoozed_until := none, next_run := c r.cron_expression now } := rfl

/-! ## The claims -/

/-- C1: for every reminder name and every wall-clock minute, across any
number of tick-loop iterations within that minute, the scheduler invokes the
`on_due` callback for that name at most once. -/
theorem c1_minute_idempotency (c : String → Nat → Nat) (name : String) (m : Nat)
    (times : List Nat) (s : SchedulerState) (h : ∀ t ∈ times, t / 60 = m) :
    countInvokes name (runTicks c times s).2 ≤ 1 :=
  (runTicks_minute c name m times s h).1

theorem c1_minute_idempotency_witness :
    (∀ t ∈ [120, 121, 122], t / 60 = 2) ∧
      countInvokes "t" (runTicks demoNext [120, 121, 122] demoState).2 ≤ 1 :=
  ⟨by decide, c1_minute_idempotency demoNext "t" 2 [120, 121, 122] demoState (by decide)⟩

/-- C2: a reminder whose `snoozed_until` is set and strictly in the future is
never dispatched by a tick, even when its `next_run` has already passed. -/
theorem c2_snooze_precedence (c : String → Nat → Nat) (now : Nat) (s : SchedulerState)
    (name : String) (r : ScheduledReminder) (su : Nat)
    (hnodup : noDupKeys s.reminders = true)
    (hlook : lookupKey name s.reminders = some r)
    (hsu : r.snoozed_until = some su)
    (hfut : now < su) :
    countInvokes name (tick c now s).2 = 0 := by
  by_contra hne
  have hpos : 1 ≤ countInvokes name (tick c now s).2 := Nat.one_le_iff_ne_zero.mpr hne
  obtain ⟨r2, hr2⟩ := countInvokes_pos_mem name _ hpos
  obtain ⟨_, _, r0, hr0mem, hr0due⟩ := tick_invoke_src c now s name r2 hr2
  have heq : r0 = r := lookup_nodup_mem name r r0 s.reminders hnodup hlook hr0mem
  subst heq
  simp [ScheduledReminder.get_effective_next_run, hsu, hfut] at hr0due
  omega

theorem c2_snooze_precedence_witness :
    noDupKeys demoStateSnoozed.reminders = true ∧
    lookupKey "t" demoStateSnoozed.reminders = some demoSnoozed ∧
    demoSnoozed.snoozed_until = some 200 ∧ 120 < 200 ∧
    countInvokes "t" (tick demoNext 120 demoStateSnoozed).2 = 0 :=
  ⟨by decide, rfl, rfl, by decide,
    c2_snooze_precedence demoNext 120 demoStateSnoozed "t" demoSnoozed 200
      (by decide) rfl rfl (by decide)⟩

/-- C3: whenever a tick dispatches a reminder, the reminder's state at the
moment the callback is invoked — the state it keeps for the rest of the
iteration — has `snoozed_until` cleared to null and `next_run` recomputed as
the next firing instant of its schedule after the current instant
(`cronNext`, the model of `croniter(expr, now).get_next`). -/
theorem c3_dispatch_updates_before_invoke (c : String → Nat → Nat) (now : Nat)
    (s : SchedulerState) (name : String) (r2 : ScheduledReminder)
    (h : TickEvent.invoke name r2 ∈ (tick c now s).2) :
    r2.snoozed_until = none ∧ r2.next_run = c r2.cron_expression now :=
  ⟨(tick_invoke_src c now s name r2 h).1, (tick_invoke_src c now s name r2 h).2.1⟩

theorem c3_dispatch_updates_before_invoke_witness :
    TickEvent.invoke "t" demoDispatched ∈ (tick demoNext 120 demoState).2 ∧
    (demoDispatched.snoozed_until = none ∧
      demoDispatched.next_run = demoNext demoDispatched.cron_expression 120) :=
  ⟨by decide,
    c3_dispatch_updates_before_invoke demoNext 120 demoState "t" demoDispatched (by decide)⟩

/-- C4: `complete_reminder` at instant `t` leaves a known reminder with
`snoozed_until` null and `next_run` recomputed as the next firing instant of
its schedule after `t`; for an unknown name it leaves the state unchanged. -/
theorem c4_complete_recomputes (c : String → Nat → Nat) (t : Nat) (s : SchedulerState)
    (name : String) :
    (∀ r, lookupKey name s.reminders = some r →
        lookupKey name (complete_reminder c t s name).reminders =
          some { r with snoozed_until := none, next_run := c r.cron_expression t }) ∧
    (lookupKey name s.reminders = none → complete_reminder c t s name = s) := by
  constructor
  · intro r hlook
    have hck : containsKey name s.reminders = true := by
      rw [containsKey_eq_isSome, hlook]; rfl
    have hcr : complete_reminder c t s name =
        { s with reminders := updateKey name (ScheduledReminder.clear_snooze c t) s.reminders } := by
      simp [complete_reminder, hck]
    rw [hcr]
    have hup := lookupKey_updateKey_self name (ScheduledReminder.clear_snooze c t) r
      s.reminders hlook
    rw [clear_snooze_eq] at hup
    exact hup
  · intro hlook
    have hck : containsKey name s.reminders = false := by
      rw [containsKey_eq_isSome, hlook]; rfl
    simp [complete_reminder, hck]

theorem c4_complete_recomputes_witness :
    lookupKey "t" demoStateSnoozed.reminders = some demoSnoozed ∧
    lookupKey "t" (complete_reminder demoNext 120 demoStateSnoozed "t").reminders =
      some { demoSnoozed with snoozed_until := none, next_run := demoNext demoSnoozed.cron_expression 120 } :=
  ⟨rfl, (c4_complete_recomputes demoNext 120 demoStateSnoozed "t").1 demoSnoozed rfl⟩

/-- C5, counterexample: configuration loading succeeds even though the
reminder's schedule string is not a valid cron expression — the loader never
validates the schedule, it stores the raw string. -/
theorem c5_load_counterexample :
    parse_config_data [("bad", TomlItem.table [("schedule", TomlPrim.str "bogus"),
        ("icon", TomlPrim.str "x.png")])] "/cfg" =
      .ok ([("bad", basicReminderConfig "bad" "bogus" "x.png" "/cfg")], generalDefault) ∧
    croniter_is_valid "bogus" = false :=
  ⟨rfl, by decide⟩

/-- C5, amended: loading checks only the presence of the required keys; a
reminder table whose schedule string is any string at all loads successfully
and the catalogue stores it unparsed.  An invalid cron expression is rejected
only later, when the reminder is registered with the scheduler. -/
theorem c5_load_no_cron_validation (name sched icon cdir : String)
    (hname : name ≠ "general") :
    parse_config_data [(name, TomlItem.table [("schedule", TomlPrim.str sched),
        ("icon", TomlPrim.str icon)])] cdir =
      .ok ([(name, basicReminderConfig name sched icon cdir)], generalDefault) ∧
    (croniter_is_valid sched = false →
      ∀ (c : String → Nat → Nat) (now : Nat) (s : SchedulerState),
        add_reminder c now s name sched =
          .error ("Invalid cron expression: " ++ sched)) := by
  constructor
  · simp [parse_config_data, parse_config_data_go, hname, ReminderConfig.from_dict,
      lookupKey, dictInsert, basicReminderConfig]
  · intro hv c now s
    simp [add_reminder, hv]

theorem c5_load_no_cron_validation_witness :
    ("bad" : String) ≠ "general" ∧
    parse_config_data [("bad", TomlItem.table [("schedule", TomlPrim.str "bogus"),
        ("icon", TomlPrim.str "y.png")])] "/cfg" =
      .ok ([("bad", basicReminderConfig "bad" "bogus" "y.png" "/cfg")], generalDefault) :=
  ⟨by decide, (c5_load_no_cron_validation "bad" "bogus" "y.png" "/cfg" (by decide)).1⟩

/-- C6: registering a reminder under an invalid schedule string raises
`ValueError` — in this embedding, returns the `.error` case and produces no
successor state, so the reminder map is left unchanged. -/
theorem c6_add_invalid_rejected (c : String → Nat → Nat) (now : Nat) (s : SchedulerState)
    (name expr : String) (h : croniter_is_valid expr = false) :
    add_reminder c now s name expr = .error ("Invalid cron expression: " ++ expr) := by
  simp [add_reminder, h]

theorem c6_add_invalid_rejected_witness :
    croniter_is_valid "bogus" = false ∧
    add_reminder demoNext 100 demoState "x" "bogus" =
      .error ("Invalid cron expression: " ++ "bogus") :=
  ⟨by decide, c6_add_invalid_rejected demoNext 100 demoState "x" "bogus" (by decide)⟩

/-- C7, counterexample: in the tick that dispatches `demoState`'s due
reminder, the callback thread is started at trace position 2 while the lock —
acquired at position 0 — is not released until position 3.  The iteration
does not release the lock before the callback is invoked, contrary to the
claim. -/
theorem c7_lock_counterexample :
    List.findIdx? (isInvokeFor "t") (tick demoNext 120 demoState).2 = some 2 ∧
    List.findIdx? isLockRelease (tick demoNext 120 demoState).2 = some 3 ∧
    (tick demoNext 120 demoState).2.head? = some TickEvent.lockAcquire := by
  refine ⟨?_, ?_, ?_⟩ <;> decide

/-- C7, amended: the tick loop starts every due callback (on a separate
thread) strictly between the lock acquisition and the lock release of the
scan — the scheduler thread still holds the lock at that point — and the
lock is always released at the end of the iteration, so a callback that
re-enters `snooze` or `complete` from its own thread blocks at most until
the scan ends and cannot deadlock. -/
theorem c7_callback_started_under_lock (c : String → Nat → Nat) (now : Nat)
    (s : SchedulerState) :
    ∃ body : List TickEvent,
      (tick c now s).2 = TickEvent.lockAcquire :: (body ++ [TickEvent.lockRelease]) ∧
      (∀ e ∈ body, e ≠ TickEvent.lockAcquire ∧ e ≠ TickEvent.lockRelease) ∧
      ∀ (nm : String) (r2 : ScheduledReminder),
        TickEvent.invoke nm r2 ∈ (tick c now s).2 → TickEvent.invoke nm r2 ∈ body := by
  refine ⟨_, tick_evs c now s, scan_no_lock c now s.reminders _, ?_⟩
  intro nm r2 h
  rw [tick_evs] at h
  simp only [List.mem_cons, List.mem_append, List.mem_singleton] at h
  rcases h with h1 | h2 | h3
  · simp at h1
  · exact h2
  · simp at h3

/-- C8: registering a name that is already present replaces the prior entry
with a freshly constructed one — exactly one entry remains under the name,
holding the new schedule and its newly computed `next_run` — and all entries
under other names are unchanged. -/
theorem c8_add_replaces (c : String → Nat → Nat) (now : Nat) (s : SchedulerState)
    (name expr : String) (s2 : SchedulerState)
    (hnodup : noDupKeys s.reminders = true)
    (_hmem : containsKey name s.reminders = true)
    (hok : add_reminder c now s name expr = .ok s2) :
    lookupKey name s2.reminders = some (freshReminder c now name expr) ∧
    keyCount name s2.reminders = 1 ∧
    ∀ n2, n2 ≠ name → lookupKey n2 s2.reminders = lookupKey n2 s.reminders := by
  obtain ⟨_, hs2⟩ := add_reminder_ok c now s name expr s2 hok
  subst hs2
  exact ⟨lookupKey_dictInsert_self name _ s.reminders,
    keyCount_dictInsert name _ s.reminders hnodup,
    fun n2 hne => lookupKey_dictInsert_ne name n2 _ hne s.reminders⟩

theorem c8_add_replaces_witness :
    noDupKeys demoTwo.reminders = true ∧
    containsKey "t" demoTwo.reminders = true ∧
    (lookupKey "t" demoReplaced.reminders = some (freshReminder demoNext 130 "t" "0 * * * *") ∧
      keyCount "t" demoReplaced.reminders = 1 ∧
      ∀ n2, n2 ≠ "t" →
        lookupKey n2 demoReplaced.reminders = lookupKey n2 demoTwo.reminders) :=
  ⟨by decide, by decide,
    c8_add_replaces demoNext 130 demoTwo "t" "0 * * * *" demoReplaced
      (by decide) (by decide) rfl⟩

/-- C9: every successful registration stores an entry whose `snoozed_until`
is null — in particular, re-registering an existing name discards any active
snooze of the prior entry. -/
theorem c9_add_stores_no_snooze (c : String → Nat → Nat) (now : Nat) (s : SchedulerState)
    (name expr : String) (s2 : SchedulerState)
    (hok : add_reminder c now s name expr = .ok s2) :
    lookupKey name s2.reminders = some (freshReminder c now name expr) := by
  obtain ⟨_, hs2⟩ := add_reminder_ok c now s name expr s2 hok
  subst hs2
  exact lookupKey_dictInsert_self name _ s.reminders

theorem c9_add_stores_no_snooze_witness :
    add_reminder demoNext 100 SchedulerState.init "w" "* * * * *" = .ok demoAddedInit ∧
    lookupKey "w" demoAddedInit.reminders = some (freshReminder demoNext 100 "w" "* * * * *") :=
  ⟨rfl, c9_add_stores_no_snooze demoNext 100 SchedulerState.init "w" "* * * * *"
    demoAddedInit rfl⟩

/-- C10: the dispatched-this-minute guard is scheduler-wide, not per-entry —
after a dispatch, removing and re-registering the same name leaves it in the
triggered set, so a later tick in the same wall-clock minute dispatches
nothing for it. -/
theorem c10_guard_scheduler_wide (c : String → Nat → Nat) (s0 : SchedulerState)
    (t tadd t2 : Nat) (name expr : String) (s2 : SchedulerState)
    (hdisp : 1 ≤ countInvokes name (tick c t s0).2)
    (hok : add_reminder c tadd (remove_reminder (tick c t s0).1 name) name expr = .ok s2)
    (hsame : t2 / 60 = t / 60) :
    countInvokes name (tick c t2 s2).2 = 0 := by
  have hmem0 : name ∈ (tick c t s0).1.triggered_this_minute := (tick_bound c t s0 name).2 hdisp
  have hlast0 : (tick c t s0).1.last_minute = some (minuteOfHour t) := tick_last c t s0
  obtain ⟨_, hs2⟩ := add_reminder_ok c tadd _ name expr s2 hok
  have htrig2 : s2.triggered_this_minute = (tick c t s0).1.triggered_this_minute := by
    rw [hs2]; rfl
  have hlast2 : s2.last_minute = (tick c t s0).1.last_minute := by
    rw [hs2]; rfl
  have hmOH : minuteOfHour t2 = minuteOfHour t := by
    unfold minuteOfHour; rw [hsame]
  exact (tick_guarded c t2 s2 name (htrig2 ▸ hmem0)
    (by rw [hlast2, hlast0, hmOH])).1

theorem c10_guard_scheduler_wide_witness :
    1 ≤ countInvokes "t" (tick demoNext 120 demoState).2 ∧
    add_reminder demoNext 125 (remove_reminder (tick demoNext 120 demoState).1 "t")
        "t" "* * * * *" = .ok demoReAdded ∧
    130 / 60 = 120 / 60 ∧
    countInvokes "t" (tick demoNext 130 demoReAdded).2 = 0 :=
  ⟨by decide, rfl, rfl,
    c10_guard_scheduler_wide demoNext demoState 120 125 130 "t" "* * * * *" demoReAdded
      (by decide) rfl rfl⟩
